import Mathlib

/-!
A shallow embedding of `src/utl.ts` of the Gmail-MCP-Server repository.

Strings are modelled at the level of their character sequences (`List Char`);
JavaScript string indices (UTF-16 units) coincide with character indices for
the ASCII inputs handled here.  JavaScript regular-expression operations are
transcribed as explicit scanning functions over `List Char`.  Node's `Buffer`
base64/UTF-8 codecs (external to the repository) are modelled by total,
lenient decoders.  All definitions are executable.
-/

/-- JavaScript whitespace (the core of the regex class backslash-s): space,
tab, newline, carriage return, vertical tab, form feed. -/
def isJsWs (c : Char) : Bool :=
  c = ' ' || c = '\t' || c = '\n' || c = '\r' || c = Char.ofNat 11 || c = Char.ofNat 12

/-- JavaScript `String.prototype.trim` on a character list: drop leading and
trailing whitespace. -/
def trimL (cs : List Char) : List Char :=
  ((cs.dropWhile isJsWs).reverse.dropWhile isJsWs).reverse

/-- JavaScript `String.prototype.trim`. -/
def trimStr (s : String) : String :=
  String.mk (trimL s.toList)

/-- Does `pat` occur as a leading segment of `cs`? (decidable prefix test) -/
def leadsWith (pat cs : List Char) : Bool :=
  pat.isPrefixOf cs

/-- Does `pat` occur as a trailing segment of `cs`? -/
def trailsWith (pat cs : List Char) : Bool :=
  pat.reverse.isPrefixOf cs.reverse

/-- `String.prototype.indexOf`-style search: the first character index at
which `pat` occurs as a contiguous block of `cs`, if any. -/
def indexOfSub (pat : List Char) : List Char → Option Nat
  | [] => if pat = [] then some 0 else none
  | c :: rest =>
    if leadsWith pat (c :: rest) then some 0
    else (indexOfSub pat rest).map (· + 1)

/-- ASCII lower-casing of a character list (models a case-insensitive
regex/search over the ASCII inputs involved). -/
def lowerL (cs : List Char) : List Char :=
  cs.map Char.toLower

/-- Split a character list into its lines at newline characters (the line
structure used by multiline-anchored JavaScript regexes; line terminators are
modelled as the newline character). -/
def splitNl : List Char → List (List Char)
  | [] => [[]]
  | c :: rest =>
    if c = '\n' then [] :: splitNl rest
    else
      match splitNl rest with
      | l :: ls => (c :: l) :: ls
      | [] => [[c]]

/-- Offset-tracking scan over a line list: the start index (in the original
string) of the first line satisfying `p`. -/
def searchLinesGo (p : List Char → Bool) : List (List Char) → Nat → Option Nat
  | [], _ => none
  | l :: ls, off => if p l then some off else searchLinesGo p ls (off + l.length + 1)

/-- `String.prototype.search` for a start-of-line-anchored pattern: the start
index of the first line whose contents satisfy the line predicate `p`. -/
def searchLines (p : List Char → Bool) (cs : List Char) : Option Nat :=
  searchLinesGo p (splitNl cs) 0

/-! ### Base64 and UTF-8 (model of Node's `Buffer`, an external collaborator) -/

/-- Value of a standard-base64 alphabet character, `none` for anything else
(padding included). -/
def b64Val (c : Char) : Option Nat :=
  if 'A' ≤ c && c ≤ 'Z' then some (c.toNat - 'A'.toNat)
  else if 'a' ≤ c && c ≤ 'z' then some (c.toNat - 'a'.toNat + 26)
  else if '0' ≤ c && c ≤ '9' then some (c.toNat - '0'.toNat + 52)
  else if c = '+' then some 62
  else if c = '/' then some 63
  else none

/-- Reassemble bytes from a run of 6-bit values (lenient base64 body:
a trailing group of 2 or 3 sextets yields 1 or 2 bytes, a lone sextet is
dropped — `Buffer.from(-, 'base64')` never fails). -/
def sextetsToBytes : List Nat → List Nat
  | a :: b :: c :: d :: rest =>
    (a * 4 + b / 16) :: ((b % 16) * 16 + c / 4) :: ((c % 4) * 64 + d) :: sextetsToBytes rest
  | [a, b] => [a * 4 + b / 16]
  | [a, b, c] => [a * 4 + b / 16, (b % 16) * 16 + c / 4]
  | _ => []

/-- Lenient base64 decoding of a character list to bytes: characters outside
the alphabet (and `=` padding) are skipped, as in Node's tolerant decoder. -/
def base64DecodeBytes (cs : List Char) : List Nat :=
  sextetsToBytes (cs.filterMap b64Val)

/-- Is `b` a UTF-8 continuation byte? -/
def isContByte (b : Nat) : Bool :=
  0x80 ≤ b && b < 0xC0

/-- A guarded character constructor: scalar values that are not valid Unicode
code points become U+FFFD. -/
def mkCharSafe (n : Nat) : Char :=
  if _h : n.isValidChar then Char.ofNat n else Char.ofNat 0xFFFD

/-- Lossy UTF-8 decoding, with fuel making the recursion structural (each
step consumes at least one byte, so fuel equal to the byte count — as
supplied by `utf8DecodeLossy` — never runs out). -/
def utf8DecodeLossyF : Nat → List Nat → List Char
  | 0, _ => []
  | _ + 1, [] => []
  | fuel + 1, b1 :: rest =>
    if b1 < 0x80 then mkCharSafe b1 :: utf8DecodeLossyF fuel rest
    else if 0xC2 ≤ b1 && b1 ≤ 0xDF then
      match rest with
      | b2 :: rest2 =>
        if isContByte b2 then
          mkCharSafe ((b1 - 0xC0) * 64 + (b2 - 0x80)) :: utf8DecodeLossyF fuel rest2
        else '�' :: utf8DecodeLossyF fuel (b2 :: rest2)
      | [] => ['�']
    else if 0xE0 ≤ b1 && b1 ≤ 0xEF then
      match rest with
      | b2 :: b3 :: rest3 =>
        if isContByte b2 && isContByte b3 then
          mkCharSafe ((b1 - 0xE0) * 4096 + (b2 - 0x80) * 64 + (b3 - 0x80)) ::
            utf8DecodeLossyF fuel rest3
        else '�' :: utf8DecodeLossyF fuel (b2 :: b3 :: rest3)
      | _ => ['�']
    else if 0xF0 ≤ b1 && b1 ≤ 0xF4 then
      match rest with
      | b2 :: b3 :: b4 :: rest4 =>
        if isContByte b2 && isContByte b3 && isContByte b4 then
          mkCharSafe ((b1 - 0xF0) * 262144 + (b2 - 0x80) * 4096 +
              (b3 - 0x80) * 64 + (b4 - 0x80)) :: utf8DecodeLossyF fuel rest4
        else '�' :: utf8DecodeLossyF fuel (b2 :: b3 :: b4 :: rest4)
      | _ => ['�']
    else '�' :: utf8DecodeLossyF fuel rest

/-- Lossy UTF-8 decoding of a byte list (models `Buffer#toString('utf8')`:
malformed sequences become U+FFFD, the decoder never fails). -/
def utf8DecodeLossy (l : List Nat) : List Char :=
  utf8DecodeLossyF l.length l

/-- UTF-8 encoding of a character (standard 1–4 byte form). -/
def utf8EncodeChar (c : Char) : List Nat :=
  let n := c.toNat
  if n < 0x80 then [n]
  else if n < 0x800 then [0xC0 + n / 64, 0x80 + n % 64]
  else if n < 0x10000 then [0xE0 + n / 4096, 0x80 + (n / 64) % 64, 0x80 + n % 64]
  else [0xF0 + n / 262144, 0x80 + (n / 4096) % 64, 0x80 + (n / 64) % 64, 0x80 + n % 64]

/-- UTF-8 bytes of a string (models `Buffer.from(text)`). -/
def utf8Encode (cs : List Char) : List Nat :=
  (cs.map utf8EncodeChar).flatten

/-- Standard base64 encoding of a byte list with `=` padding (models
`Buffer#toString('base64')`). -/
def b64Char (n : Nat) : Char :=
  if n < 26 then Char.ofNat ('A'.toNat + n)
  else if n < 52 then Char.ofNat ('a'.toNat + n - 26)
  else if n < 62 then Char.ofNat ('0'.toNat + n - 52)
  else if n = 62 then '+'
  else '/'

def base64EncodeBytes : List Nat → List Char
  | a :: b :: c :: rest =>
    b64Char (a / 4) :: b64Char ((a % 4) * 16 + b / 16) ::
      b64Char ((b % 16) * 4 + c / 64) :: b64Char (c % 64) :: base64EncodeBytes rest
  | [a, b] => [b64Char (a / 4), b64Char ((a % 4) * 16 + b / 16), b64Char ((b % 16) * 4), '=']
  | [a] => [b64Char (a / 4), b64Char ((a % 4) * 16), '=', '=']
  | [] => []

/-! ### `validateEmail` (src/utl.ts lines 19–22)

The source tests the anchored regex
`[caret][^bs-s@]+@[^bs-s@]+[bs-.][^bs-s@]+$`.  A character is admissible in
the local part and domain exactly when it is neither whitespace nor `@`.
Because the local part excludes `@`, the `@` the regex consumes is the first
`@` of the string; the domain must consist of admissible characters and
contain a `.` that is neither its first nor its last character (the dot of
the regex has at least one admissible character on each side; `.` itself is
admissible, so dots may also occur inside those runs). -/

/-- A character matched by the regex class `[^bs-s@]`. -/
def isAtomChar (c : Char) : Bool :=
  !isJsWs c && c ≠ '@'

/-- `[^bs-s@]+` : nonempty, all admissible. -/
def validLocal (cs : List Char) : Bool :=
  !cs.isEmpty && cs.all isAtomChar

/-- Does the list contain a `.` at an interior position (neither first nor
last)? -/
def hasInteriorDot (cs : List Char) : Bool :=
  ((cs.drop 1).dropLast).contains '.'

/-- `[^bs-s@]+[bs-.][^bs-s@]+` : nonempty, all admissible, with an interior
dot. -/
def validDomain (cs : List Char) : Bool :=
  !cs.isEmpty && cs.all isAtomChar && hasInteriorDot cs

/-- src/utl.ts lines 19–22: the email-shape test.  The characters up to the
first `@` form the candidate local part; the regex then demands a literal
`@` (the character the `dropWhile` stopped on) and a valid domain after
it. -/
def validateEmail (email : String) : Bool :=
  match email.toList.dropWhile (· ≠ '@') with
  | c :: domain =>
    c = '@' && validLocal (email.toList.takeWhile (· ≠ '@')) && validDomain domain
  | [] => false

example : validateEmail "john.doe@example.com" = true := by decide
example : validateEmail "bad-address" = false := by decide
example : validateEmail "a@b.c" = true := by decide
example : validateEmail "a@b." = false := by decide
example : validateEmail "a@.b" = false := by decide
example : validateEmail "a b@c.d" = false := by decide
example : validateEmail "a@b@c.d" = false := by decide

/-! ### `encodeEmailHeader` (src/utl.ts lines 10–17) -/

/-- Does the text contain a character outside the ASCII range (the regex
test on line 12)? -/
def hasNonAscii (cs : List Char) : Bool :=
  cs.any (fun c => 0x7F < c.toNat)

/-- src/utl.ts lines 10–17: RFC-2047 encoded-word wrapping of a header when it
contains non-ASCII characters, identity otherwise. -/
def encodeEmailHeader (text : String) : String :=
  if hasNonAscii text.toList then
    "=?UTF-8?B?" ++ String.mk (base64EncodeBytes (utf8Encode text.toList)) ++ "?="
  else text

/-! ### `createEmailMessage` (src/utl.ts lines 24–97)

The request object (`validatedArgs`) is modelled by `EmailArgs`; absent
fields are `none`.  JavaScript truthiness: an absent or empty string is
falsy, an array (even empty) is truthy.  The `Math.random()`-derived boundary
suffix is an explicit parameter `rand` (the source's only impurity here).
The `throw` on an invalid recipient is modelled by `Except.error`. -/

structure EmailArgs where
  «to» : List String
  cc : Option (List String) := none
  bcc : Option (List String) := none
  subject : String := ""
  body : String := ""
  htmlBody : Option String := none
  mimeType : Option String := none
  inReplyTo : Option String := none
  attachments : Option (List String) := none

/-- JavaScript truthiness of an optional string field. -/
def truthyS : Option String → Bool
  | some s => !s.isEmpty
  | none => false

/-- `Array.prototype.join` with a separator. -/
def joinWith (sep : String) : List String → String
  | [] => ""
  | [x] => x
  | x :: y :: xs => x ++ sep ++ joinWith sep (y :: xs)

/-- Lines 27–33: the effective content type. `validatedArgs.mimeType ||
'text/plain'`, upgraded to `multipart/alternative` when an HTML body is
present and the type is not `text/plain`. -/
def resolvedMimeType (args : EmailArgs) : String :=
  let m0 := match args.mimeType with
    | some m => if m.isEmpty then "text/plain" else m
    | none => "text/plain"
  if truthyS args.htmlBody && m0 ≠ "text/plain" then "multipart/alternative" else m0

/-- `validatedArgs.htmlBody || validatedArgs.body` (lines 77 and 87). -/
def htmlOrBody (args : EmailArgs) : String :=
  match args.htmlBody with
  | some h => if h.isEmpty then args.body else h
  | none => args.body

/-- Lines 46–56: the common header block, conditional entries included, with
empty entries removed by `.filter(Boolean)`. -/
def headerLines (args : EmailArgs) : List String :=
  ([ "From: me",
     "To: " ++ joinWith ", " args.to,
     (match args.cc with | some l => "Cc: " ++ joinWith ", " l | none => ""),
     (match args.bcc with | some l => "Bcc: " ++ joinWith ", " l | none => ""),
     "Subject: " ++ encodeEmailHeader args.subject,
     (match args.inReplyTo with
      | some r => if r.isEmpty then "" else "In-Reply-To: " ++ r
      | none => ""),
     (match args.inReplyTo with
      | some r => if r.isEmpty then "" else "References: " ++ r
      | none => ""),
     "MIME-Version: 1.0" ]).filter (fun l => !l.isEmpty)

/-- Lines 58–94: the content lines pushed after the header block, by content
type.  `rand` is the random alphanumeric suffix of the boundary token. -/
def bodyLines (args : EmailArgs) (rand : String) : List String :=
  let boundary := "----=_NextPart_" ++ rand
  let mt := resolvedMimeType args
  if mt = "multipart/alternative" then
    [ "Content-Type: multipart/alternative; boundary=\"" ++ boundary ++ "\"",
      "",
      "--" ++ boundary,
      "Content-Type: text/plain; charset=UTF-8",
      "Content-Transfer-Encoding: 7bit",
      "",
      args.body,
      "",
      "--" ++ boundary,
      "Content-Type: text/html; charset=UTF-8",
      "Content-Transfer-Encoding: 7bit",
      "",
      htmlOrBody args,
      "",
      "--" ++ boundary ++ "--" ]
  else if mt = "text/html" then
    [ "Content-Type: text/html; charset=UTF-8",
      "Content-Transfer-Encoding: 7bit",
      "",
      htmlOrBody args ]
  else
    [ "Content-Type: text/plain; charset=UTF-8",
      "Content-Transfer-Encoding: 7bit",
      "",
      args.body ]

/-- src/utl.ts lines 24–97: compose the raw message, after rejecting the
first invalid "to" recipient (lines 39–43). -/
def createEmailMessage (args : EmailArgs) (rand : String) : Except String String :=
  match args.to.find? (fun e => !validateEmail e) with
  | some bad => .error ("Recipient email address is invalid: " ++ bad)
  | none => .ok (joinWith "\r\n" (headerLines args ++ bodyLines args rand))

/-! ### `createEmailWithNodemailer` (src/utl.ts lines 100–148)

The file system and the external nodemailer renderer are collaborators
outside the repository: they are parameters (`fsExists`, `render`).  The
function's own behaviour is recipient validation, attachment-existence
checking, and assembly of the renderer's input (`MailOptions`).  Note that
line 117 iterates `validatedArgs.attachments` unconditionally: when the
optional field is absent, JavaScript throws a `TypeError` (undefined is not
iterable), modelled by `MailError.attachmentsNotIterable`. -/

inductive MailError where
  | invalidRecipient (addr : String)
  | missingAttachment (path : String)
  | attachmentsNotIterable
deriving DecidableEq, Repr

structure MailAttachment where
  filename : String
  path : String
deriving DecidableEq, Repr

/-- Model of `path.basename` (an external collaborator): the segment after
the last slash. -/
def basename (p : String) : String :=
  String.mk ((p.toList.reverse.takeWhile (· ≠ '/')).reverse)

/-- The `mailOptions` object of lines 130–141.  `fromField` models the
`from` field. -/
structure MailOptions where
  fromField : String
  toField : String
  cc : Option String
  bcc : Option String
  subject : String
  text : String
  html : Option String
  attachments : List MailAttachment
  inReplyTo : Option String
  references : Option String
deriving DecidableEq, Repr

def mailOptionsOf (args : EmailArgs) (paths : List String) : MailOptions where
  fromField := "me"
  toField := joinWith ", " args.to
  cc := args.cc.map (joinWith ", ")
  bcc := args.bcc.map (joinWith ", ")
  subject := args.subject
  text := args.body
  html := args.htmlBody
  attachments := paths.map (fun p => ⟨basename p, p⟩)
  inReplyTo := args.inReplyTo
  references := args.inReplyTo

/-- src/utl.ts lines 100–148. -/
def createEmailWithNodemailer (args : EmailArgs) (fsExists : String → Bool)
    (render : MailOptions → String) : Except MailError String :=
  match args.to.find? (fun e => !validateEmail e) with
  | some bad => .error (.invalidRecipient bad)
  | none =>
    match args.attachments with
    | none => .error .attachmentsNotIterable
    | some paths =>
      match paths.find? (fun p => !fsExists p) with
      | some p => .error (.missingAttachment p)
      | none => .ok (render (mailOptionsOf args paths))

example :
    createEmailMessage ⟨["a@b.c"], none, none, "s", "hello", none, none, none, none⟩ "R" =
      Except.ok ("From: me\r\nTo: a@b.c\r\nSubject: s\r\nMIME-Version: 1.0\r\n" ++
        "Content-Type: text/plain; charset=UTF-8\r\nContent-Transfer-Encoding: 7bit\r\n\r\nhello") := by
  rfl

/-! ### `makeEmailBodyLLMSafe` (src/utl.ts lines 151–262)

The inbound payload is a recursive MIME part tree; every helper of the
sanitizer is transcribed below as a total function.  JavaScript regex
replacement loops become explicit left-to-right scans. -/

structure MimeBodyData where
  data : Option String := none

inductive MimePart where
  | mk (mimeType : Option String) (body : Option MimeBodyData) (parts : Option (List MimePart))

/-- Lines 155–160: URL-safe base64 to UTF-8 text, `-`/`_` first rewritten to
`+`/`/`; empty or absent data yields the empty string. -/
def decodeBody (data : String) : String :=
  if data.isEmpty then ""
  else
    let fixed := data.toList.map (fun c => if c = '-' then '+' else if c = '_' then '/' else c)
    String.mk (utf8DecodeLossy (base64DecodeBytes fixed))

/-- Lines 169–175: a node's own (text, html) contribution.  The guard
`part.body?.data` is JavaScript-truthy only for a present, nonempty string. -/
def ownContribution (mime : Option String) (body : Option MimeBodyData) : String × String :=
  let d := match body with
    | some b => b.data.getD ""
    | none => ""
  if mime = some "text/plain" && !d.isEmpty then (decodeBody d, "")
  else if mime = some "text/html" && !d.isEmpty then ("", decodeBody d)
  else ("", "")

mutual

/-- Lines 163–186: depth-first accumulation of text/plain and text/html
payloads, a node's own contribution first, then its children in order. -/
def extract : MimePart → String × String
  | .mk mime body parts =>
    let own := ownContribution mime body
    let rest := match parts with
      | some ps => extractList ps
      | none => ("", "")
    (own.1 ++ rest.1, own.2 ++ rest.2)

/-- The `for (const p of part.parts)` loop of lines 178–183. -/
def extractList : List MimePart → String × String
  | [] => ("", "")
  | p :: ps =>
    let c := extract p
    let r := extractList ps
    (c.1 ++ r.1, c.2 ++ r.2)

end

/-! #### `htmlToText` (lines 188–204), one regex pass per definition -/

theorem dropWhile_length_le (p : Char → Bool) :
    ∀ l : List Char, (l.dropWhile p).length ≤ l.length := by
  intro l
  induction l with
  | nil => simp [List.dropWhile]
  | cons c cs ih =>
    simp only [List.dropWhile]
    split
    · exact Nat.le_succ_of_le ih
    · exact Nat.le_refl _

/-- One global pass of `openPat[anything]*?closePat` (case-insensitive)
removal — the style/script eraser of lines 192–193 — with fuel making the
recursion structural.  Every step consumes at least one input character, so
fuel equal to the input length (as supplied by `stripBlocks`) never runs
out.  A block with no later closing marker is left in place (the regex then
has no match there). -/
def stripBlocksF (openPat closePat : List Char) : Nat → List Char → List Char
  | 0, l => l
  | _ + 1, [] => []
  | fuel + 1, c :: rest =>
    if leadsWith openPat (lowerL (c :: rest)) then
      match indexOfSub closePat (lowerL ((c :: rest).drop openPat.length)) with
      | some j =>
        stripBlocksF openPat closePat fuel
          (rest.drop (openPat.length + j + closePat.length - 1))
      | none => c :: stripBlocksF openPat closePat fuel rest
    else c :: stripBlocksF openPat closePat fuel rest

def stripBlocks (openPat closePat : List Char) (l : List Char) : List Char :=
  stripBlocksF openPat closePat l.length l

/-- The closing tags of line 196: p, div, li, h1–h6, br, tr. -/
def closeTagPats : List (List Char) :=
  [ "</p>".toList, "</div>".toList, "</li>".toList,
    "</h1>".toList, "</h2>".toList, "</h3>".toList,
    "</h4>".toList, "</h5>".toList, "</h6>".toList,
    "</br>".toList, "</tr>".toList ]

/-- Line 196: replace each closing structural tag (case-insensitive) with a
newline.  A matched tag of width `t.length` is skipped via a drop on `rest`
(every pattern is nonempty); fueled as above. -/
def replaceCloseTagsF : Nat → List Char → List Char
  | 0, l => l
  | _ + 1, [] => []
  | fuel + 1, c :: rest =>
    match closeTagPats.find? (fun t => leadsWith t (lowerL (c :: rest))) with
    | some t => '\n' :: replaceCloseTagsF fuel (rest.drop (t.length - 1))
    | none => c :: replaceCloseTagsF fuel rest

def replaceCloseTags (l : List Char) : List Char :=
  replaceCloseTagsF l.length l

/-- Line 197: replace `<li>` (case-insensitive) with a leading dash marker;
fueled as above. -/
def replaceLiTagsF : Nat → List Char → List Char
  | 0, l => l
  | _ + 1, [] => []
  | fuel + 1, c :: rest =>
    if leadsWith "<li>".toList (lowerL (c :: rest)) then
      '-' :: ' ' :: replaceLiTagsF fuel (rest.drop 3)
    else c :: replaceLiTagsF fuel rest

def replaceLiTags (l : List Char) : List Char :=
  replaceLiTagsF l.length l

/-- Line 199: strip every remaining `<...>` tag (nonempty interior), each
replaced by a single space; fueled as above. -/
def stripTagsF : Nat → List Char → List Char
  | 0, l => l
  | _ + 1, [] => []
  | fuel + 1, c :: rest =>
    if c = '<' then
      match indexOfSub ['>'] rest with
      | some j =>
        if j = 0 then c :: stripTagsF fuel rest
        else ' ' :: stripTagsF fuel (rest.drop (j + 1))
      | none => c :: stripTagsF fuel rest
    else c :: stripTagsF fuel rest

def stripTags (l : List Char) : List Char :=
  stripTagsF l.length l

/-- Line 201: a newline whose following whitespace run contains another
newline collapses, run included, to exactly one blank line; fueled as
above. -/
def collapseBlankLinesF : Nat → List Char → List Char
  | 0, l => l
  | _ + 1, [] => []
  | fuel + 1, '\r' :: '\n' :: rest2 =>
    let w := rest2.takeWhile isJsWs
    if w.contains '\n' then '\n' :: '\n' :: collapseBlankLinesF fuel (rest2.drop w.length)
    else '\r' :: collapseBlankLinesF fuel ('\n' :: rest2)
  | fuel + 1, c :: rest =>
    if c = '\n' then
      let w := rest.takeWhile isJsWs
      if w.contains '\n' then '\n' :: '\n' :: collapseBlankLinesF fuel (rest.drop w.length)
      else c :: collapseBlankLinesF fuel rest
    else c :: collapseBlankLinesF fuel rest

def collapseBlankLines (l : List Char) : List Char :=
  collapseBlankLinesF l.length l

/-- Line 202: collapse each run of spaces and tabs to a single space; fueled
as above. -/
def collapseSpacesF : Nat → List Char → List Char
  | 0, l => l
  | _ + 1, [] => []
  | fuel + 1, c :: rest =>
    if c = ' ' || c = '\t' then
      ' ' :: collapseSpacesF fuel (rest.dropWhile (fun d => d = ' ' || d = '\t'))
    else c :: collapseSpacesF fuel rest

def collapseSpaces (l : List Char) : List Char :=
  collapseSpacesF l.length l

/-- Lines 188–204: the HTML-to-text conversion. -/
def htmlToText (html : String) : String :=
  if html.isEmpty then ""
  else
    let s1 := stripBlocks "<style".toList "</style>".toList html.toList
    let s2 := stripBlocks "<script".toList "</script>".toList s1
    let s3 := replaceLiTags (replaceCloseTags s2)
    let s4 := stripTags s3
    let s5 := collapseSpaces (collapseBlankLines s4)
    String.mk (trimL s5)

/-! #### `stripQuoted` (lines 206–220)

Each marker is a start-of-line-anchored (multiline) pattern, so a match
position is a line start; a marker regex is modelled by a predicate on a
line's characters.  The `for`/`return` loop takes the first pattern in list
order that matches anywhere, cutting at that pattern's earliest match. -/

/-- Line regex `On [anything]* wrote:$` : the line is `On `, then anything,
then ` wrote:` (the dot of the regex does not cross the line). -/
def lineOnWrote (l : List Char) : Bool :=
  leadsWith "On ".toList l && trailsWith " wrote:".toList (l.drop 3)

/-- Line regex `From: [anything]*$`. -/
def lineFromHeader (l : List Char) : Bool :=
  leadsWith "From: ".toList l

/-- Line regex `-----Original Message-----$` (the whole line). -/
def lineOriginalMessage (l : List Char) : Bool :=
  l = "-----Original Message-----".toList

/-- Line regex `> ?On [anything]* wrote:$`. -/
def lineQuotedOnWrote (l : List Char) : Bool :=
  match l with
  | '>' :: rest =>
    lineOnWrote rest ||
      (match rest with
       | ' ' :: r => lineOnWrote r
       | _ => false)
  | _ => false

/-- The marker list of lines 207–212, in source order. -/
def quoteMarkers : List (List Char → Bool) :=
  [lineOnWrote, lineFromHeader, lineOriginalMessage, lineQuotedOnWrote]

/-- The `for (const re of markers)` loop of lines 213–219: first pattern in
list order with a match wins; its earliest match position is the cut. -/
def stripQuotedGo : List (List Char → Bool) → String → String
  | [], s => trimStr s
  | p :: ps, s =>
    match searchLines p s.toList with
    | some i => trimStr (String.mk (s.toList.take i))
    | none => stripQuotedGo ps s

/-- Lines 206–220. -/
def stripQuoted (s : String) : String :=
  stripQuotedGo quoteMarkers s

/-! #### `stripFooters` (lines 222–237) -/

/-- The case-insensitive footer phrases of lines 223–229, in source order. -/
def footerMarkers : List String :=
  [ "This e-mail and any attachments are confidential",
    "This email and any attachments are confidential",
    "Please consider the environment before printing this email",
    "To unsubscribe",
    "Unsubscribe here" ]

/-- `s.search(re)` for a case-insensitive literal phrase: the earliest
occurrence, found on the lower-cased text. -/
def searchPhrase (pat : String) (s : String) : Option Nat :=
  indexOfSub (lowerL pat.toList) (lowerL s.toList)

/-- The loop of lines 230–236: first phrase in list order with a match wins;
on no match the text is returned unchanged (not trimmed). -/
def stripFootersGo : List String → String → String
  | [], s => s
  | pat :: ps, s =>
    match searchPhrase pat s with
    | some i => trimStr (String.mk (s.toList.take i))
    | none => stripFootersGo ps s

/-- Lines 222–237. -/
def stripFooters (s : String) : String :=
  stripFootersGo footerMarkers s

/-! #### `truncate` (lines 239–242) and the pipeline (lines 245–261) -/

/-- The marker appended on truncation (line 241); 23 characters. -/
def truncMarker : String := "\n\n[truncated for model]"

/-- Lines 239–242: keep a text within `maxChars` characters, else cut and
append the marker. -/
def truncate (maxChars : Nat) (s : String) : String :=
  if s.length ≤ maxChars then s
  else String.mk (s.toList.take maxChars) ++ truncMarker

/-- src/utl.ts lines 151–262: the sanitizer pipeline.  A `null` payload is
`none` (line 246 replaces it by the empty object); the optional
`opts.maxChars` is `maxCharsOpt` with default 6000 (line 152). -/
def makeEmailBodyLLMSafe (payload : Option MimePart) (maxCharsOpt : Option Nat := none) :
    String :=
  let maxChars := maxCharsOpt.getD 6000
  let er := match payload with
    | some p => extract p
    | none => ("", "")
  let body0 := trimStr er.1
  let body1 := if body0.isEmpty && !er.2.isEmpty then htmlToText er.2 else body0
  truncate maxChars (stripFooters (stripQuoted body1))

example : decodeBody "aGk" = "hi" := by rfl
example : decodeBody "SGkgdGhlcmU" = "Hi there" := by rfl
example : decodeBody "PHA-SGVsbG88L3A-PHA-V29ybGQ8L3A-" = "<p>Hello</p><p>World</p>" := by rfl
example : htmlToText "<p>Hello</p><p>World</p>" = "Hello\n World" := by rfl
example : makeEmailBodyLLMSafe none none = "" := by rfl
example :
    makeEmailBodyLLMSafe
      (some (.mk (some "multipart/alternative") none (some
        [ .mk (some "text/plain") (some ⟨some "SGkgdGhlcmU"⟩) none,
          .mk (some "multipart/related") none (some
            [ .mk (some "text/html") (some ⟨some "PHA-SGVsbG88L3A-PHA-V29ybGQ8L3A-"⟩) none ]) ])))
      none = "Hi there" := by rfl

/-! ### General helper lemmas about the string model -/

theorem length_mk (l : List Char) : (String.mk l).length = l.length := rfl

theorem toList_mk (l : List Char) : (String.mk l).toList = l := rfl

theorem toList_append (s t : String) : (s ++ t).toList = s.toList ++ t.toList := rfl

theorem length_toList (s : String) : s.toList.length = s.length := rfl

theorem truncMarker_length : truncMarker.length = 23 := rfl

/-- The bounding stage always lands within `maxChars` plus the 23-character
marker. -/
theorem truncate_length_le (maxChars : Nat) (s : String) :
    (truncate maxChars s).length ≤ maxChars + 23 := by
  unfold truncate
  split
  · omega
  · rw [String.length_append, length_mk, List.length_take, truncMarker_length]
    omega

theorem truncate_empty (maxChars : Nat) : truncate maxChars "" = "" := by
  simp [truncate]

/-! ### Claim C1 -/

/-- C1.  The sanitizer is a total function of the payload (it is defined by
structural recursion on the tree, with no failure path), and on the empty
payloads — a null payload, the empty object, and a `text/plain` part with no
body — it returns the empty string, whatever the configured bound. -/
theorem sanitizer_total_and_empty_on_empty_payloads :
    ∀ maxCharsOpt : Option Nat,
      makeEmailBodyLLMSafe none maxCharsOpt = "" ∧
      makeEmailBodyLLMSafe (some (.mk none none none)) maxCharsOpt = "" ∧
      makeEmailBodyLLMSafe (some (.mk (some "text/plain") none none)) maxCharsOpt = "" := by
  intro maxCharsOpt
  refine ⟨?_, ?_, ?_⟩ <;> exact truncate_empty _

/-! ### Claim C2

`stripQuotedSpecCombined` is formulated from the claim's words — the
truncation point is the earliest match position across all patterns
combined — for comparison against the source's loop. -/

/-- Claim-side comparator: cut at the minimum over all four quoted-reply
patterns of their earliest match positions. -/
def stripQuotedSpecCombined (s : String) : String :=
  match (quoteMarkers.filterMap (fun p => searchLines p s.toList)).min? with
  | some i => trimStr (String.mk (s.toList.take i))
  | none => trimStr s

/-- A text in which the second pattern in list order (`From: `) matches at
position 0 but the first pattern (`On [anything]* wrote:`) matches later, at
position 10. -/
def quotedCexText : String := "From: Bob\nOn Mon x wrote:\nrest"

/-- C2, counterexample.  On `quotedCexText` the source's quoted-reply stage
cuts at the first-listed pattern's match (position 10, keeping
`From: Bob`), not at the earliest match across all patterns combined
(position 0, which would leave the empty string): the claim's
earliest-across-all description disagrees with the code here. -/
theorem stripQuoted_not_earliest_combined :
    stripQuoted quotedCexText = "From: Bob" ∧
    stripQuotedSpecCombined quotedCexText = "" ∧
    stripQuoted quotedCexText ≠ stripQuotedSpecCombined quotedCexText := by
  refine ⟨rfl, rfl, ?_⟩
  decide

/-- First `some` in list order (the cut position selected by a
`for`/`return` loop over pattern search results). -/
def firstListOrderCut : List (Option Nat) → Option Nat
  | [] => none
  | some i :: _ => some i
  | none :: rest => firstListOrderCut rest

theorem stripQuotedGo_eq_firstListOrderCut (ps : List (List Char → Bool)) (s : String) :
    stripQuotedGo ps s =
      match firstListOrderCut (ps.map (fun p => searchLines p s.toList)) with
      | some i => trimStr (String.mk (s.toList.take i))
      | none => trimStr s := by
  induction ps with
  | nil => rfl
  | cons p ps ih =>
    simp only [stripQuotedGo, List.map]
    cases h : searchLines p s.toList with
    | none => simp only [firstListOrderCut, ih]
    | some i => simp only [firstListOrderCut]

theorem stripFootersGo_eq_firstListOrderCut (ps : List String) (s : String) :
    stripFootersGo ps s =
      match firstListOrderCut (ps.map (fun pat => searchPhrase pat s)) with
      | some i => trimStr (String.mk (s.toList.take i))
      | none => s := by
  induction ps with
  | nil => rfl
  | cons p ps ih =>
    simp only [stripFootersGo, List.map]
    cases h : searchPhrase p s with
    | none => simp only [firstListOrderCut, ih]
    | some i => simp only [firstListOrderCut]

/-- C2, amended.  In both stripping stages the truncation point is the
earliest match position of the *first pattern in list order that matches
anywhere* — not the earliest match across all patterns combined; everything
before that position is kept (trimmed), and with no match the quoted-reply
stage trims while the footer stage returns the text unchanged. -/
theorem strip_stages_first_pattern_in_list_order :
    ∀ s : String,
      (stripQuoted s =
        match firstListOrderCut (quoteMarkers.map (fun p => searchLines p s.toList)) with
        | some i => trimStr (String.mk (s.toList.take i))
        | none => trimStr s) ∧
      (stripFooters s =
        match firstListOrderCut (footerMarkers.map (fun pat => searchPhrase pat s)) with
        | some i => trimStr (String.mk (s.toList.take i))
        | none => s) := by
  intro s
  exact ⟨stripQuotedGo_eq_firstListOrderCut quoteMarkers s,
    stripFootersGo_eq_firstListOrderCut footerMarkers s⟩

/-! ### Claim C6 -/

/-- C6.  Text within the bound is returned unchanged; longer text becomes
exactly the first `maxChars` characters followed by the marker — in
particular a 7000-character text with the default bound 6000 keeps exactly
6000 original characters plus the marker. -/
theorem truncate_exact_behaviour :
    (∀ (maxChars : Nat) (s : String),
      (s.length ≤ maxChars → truncate maxChars s = s) ∧
      (maxChars < s.length →
        truncate maxChars s = String.mk (s.toList.take maxChars) ++ truncMarker ∧
        (String.mk (s.toList.take maxChars)).length = maxChars)) ∧
    truncate 6000 (String.mk (List.replicate 7000 'a')) =
      String.mk (List.replicate 6000 'a') ++ truncMarker := by
  constructor
  · intro maxChars s
    constructor
    · intro h
      simp [truncate, h]
    · intro h
      have h2 : ¬ s.length ≤ maxChars := by omega
      refine ⟨by simp [truncate, h2], ?_⟩
      rw [length_mk, List.length_take, length_toList]
      omega
  · have h2 : ¬ (String.mk (List.replicate 7000 'a')).length ≤ 6000 := by
      rw [length_mk, List.length_replicate]
      omega
    simp only [truncate, h2, if_false, toList_mk]
    rw [List.take_replicate]
    norm_num

theorem truncate_exact_behaviour_witness :
    (("ab" : String).length ≤ 3 ∧ truncate 3 "ab" = "ab") ∧
    (1 < ("ab" : String).length ∧
      truncate 1 "ab" = String.mk (("ab" : String).toList.take 1) ++ truncMarker ∧
      (String.mk (("ab" : String).toList.take 1)).length = 1) :=
  ⟨⟨by decide, (truncate_exact_behaviour.1 3 "ab").1 (by decide)⟩,
   ⟨by decide, (truncate_exact_behaviour.1 1 "ab").2 (by decide)⟩⟩

/-! ### Claim C7 -/

/-- A payload whose single `text/plain` part decodes to `hi`. -/
def hiPayload : MimePart := .mk (some "text/plain") (some ⟨some "aGk"⟩) none

/-- C7, counterexample.  With `maxChars = 1` the sanitizer's output on a
2-character body has length 24 (the cut character plus the 23-character
truncation marker), exceeding `maxChars`: the claimed bound
`length ≤ maxChars` fails. -/
theorem sanitizer_output_exceeds_maxChars :
    (makeEmailBodyLLMSafe (some hiPayload) (some 1)).length = 24 ∧
    ¬ (makeEmailBodyLLMSafe (some hiPayload) (some 1)).length ≤ 1 := by
  refine ⟨rfl, ?_⟩
  decide

/-- C7, amended.  For every payload and every configured bound, the output
length is at most `maxChars` plus the 23 characters of the appended
truncation marker. -/
theorem sanitizer_length_bounded (payload : Option MimePart) (maxCharsOpt : Option Nat) :
    (makeEmailBodyLLMSafe payload maxCharsOpt).length ≤ maxCharsOpt.getD 6000 + 23 :=
  truncate_length_le _ _

/-! ### Claim C4 -/

theorem find_first_invalid (l : List String) (h : ∃ e ∈ l, validateEmail e = false) :
    ∃ pre bad post, l = pre ++ bad :: post ∧ validateEmail bad = false ∧
      (∀ e ∈ pre, validateEmail e = true) ∧
      l.find? (fun e => !validateEmail e) = some bad := by
  induction l with
  | nil => simp at h
  | cons x xs ih =>
    by_cases hx : validateEmail x = true
    · have hxs : ∃ e ∈ xs, validateEmail e = false := by
        obtain ⟨e, he, hev⟩ := h
        rcases List.mem_cons.mp he with rfl | hmem
        · rw [hx] at hev; cases hev
        · exact ⟨e, hmem, hev⟩
      obtain ⟨pre, bad, post, h1, h2, h3, h4⟩ := ih hxs
      refine ⟨x :: pre, bad, post, by rw [h1]; rfl, h2, ?_, ?_⟩
      · intro e he
        rcases List.mem_cons.mp he with rfl | hmem
        · exact hx
        · exact h3 e hmem
      · simp [List.find?, hx, h4]
    · have hx2 : validateEmail x = false := by
        cases hvx : validateEmail x
        · rfl
        · exact absurd hvx hx
      refine ⟨[], x, xs, rfl, hx2, by simp, ?_⟩
      simp [List.find?, hx2]

/-- C4.  When some "to" address fails the validator, composition fails at the
first offending entry with an error naming it, and no message string is
produced. -/
theorem composer_rejects_first_invalid_recipient (args : EmailArgs) (rand : String)
    (h : ∃ e ∈ args.to, validateEmail e = false) :
    ∃ pre bad post, args.to = pre ++ bad :: post ∧ validateEmail bad = false ∧
      (∀ e ∈ pre, validateEmail e = true) ∧
      createEmailMessage args rand =
        Except.error ("Recipient email address is invalid: " ++ bad) := by
  obtain ⟨pre, bad, post, h1, h2, h3, h4⟩ := find_first_invalid args.to h
  refine ⟨pre, bad, post, h1, h2, h3, ?_⟩
  simp only [createEmailMessage, h4]

def invalidToArgs : EmailArgs := { «to» := ["bad-address"], subject := "s", body := "b" }

theorem composer_rejects_first_invalid_recipient_witness :
    (∃ e ∈ invalidToArgs.to, validateEmail e = false) ∧
    (∃ pre bad post, invalidToArgs.to = pre ++ bad :: post ∧ validateEmail bad = false ∧
      (∀ e ∈ pre, validateEmail e = true) ∧
      createEmailMessage invalidToArgs "r" =
        Except.error ("Recipient email address is invalid: " ++ bad)) :=
  ⟨⟨"bad-address", by decide, by decide⟩,
   composer_rejects_first_invalid_recipient invalidToArgs "r"
     ⟨"bad-address", by decide, by decide⟩⟩

/-! ### Claim C5 -/

def plainToArgs : EmailArgs := { «to» := ["a@b.c"], subject := "s", body := "b" }

/-- C5, counterexample.  With every "to" address valid but the optional
attachment list absent, line 117 iterates `undefined`: the call fails with a
`TypeError` that is neither of the two documented error kinds, so the
attachment list cannot in fact be omitted. -/
theorem nodemailer_throws_on_absent_attachments :
    createEmailWithNodemailer plainToArgs (fun _ => true) (fun _ => "RAW") =
      Except.error MailError.attachmentsNotIterable ∧
    (∀ e ∈ plainToArgs.to, validateEmail e = true) ∧
    (∀ a, MailError.attachmentsNotIterable ≠ MailError.invalidRecipient a) ∧
    (∀ p, MailError.attachmentsNotIterable ≠ MailError.missingAttachment p) := by
  exact ⟨rfl, by decide, fun a h => MailError.noConfusion h,
    fun p h => MailError.noConfusion h⟩

/-- C5, amended.  When the "to" addresses all pass the validator, the
attachment list is *present*, and every listed path exists, the composer
raises no error and returns the rendered raw message. -/
theorem nodemailer_success_when_attachments_present (args : EmailArgs)
    (fsExists : String → Bool) (render : MailOptions → String)
    (hto : ∀ e ∈ args.to, validateEmail e = true)
    (paths : List String) (hatt : args.attachments = some paths)
    (hfs : ∀ p ∈ paths, fsExists p = true) :
    createEmailWithNodemailer args fsExists render =
      Except.ok (render (mailOptionsOf args paths)) := by
  have h1 : args.to.find? (fun e => !validateEmail e) = none :=
    List.find?_eq_none.mpr (fun x hx => by simp [hto x hx])
  have h2 : paths.find? (fun p => !fsExists p) = none :=
    List.find?_eq_none.mpr (fun p hp => by simp [hfs p hp])
  simp only [createEmailWithNodemailer, h1, hatt, h2]

def attachArgs : EmailArgs :=
  { «to» := ["a@b.c"], subject := "s", body := "b", attachments := some ["/tmp/f.txt"] }

theorem nodemailer_success_when_attachments_present_witness :
    (∀ e ∈ attachArgs.to, validateEmail e = true) ∧
    attachArgs.attachments = some ["/tmp/f.txt"] ∧
    (∀ p ∈ (["/tmp/f.txt"] : List String), (fun _ : String => true) p = true) ∧
    createEmailWithNodemailer attachArgs (fun _ => true) (fun _ => "RAW") =
      Except.ok "RAW" :=
  ⟨by decide, rfl, by decide,
   nodemailer_success_when_attachments_present attachArgs (fun _ => true) (fun _ => "RAW")
     (by decide) ["/tmp/f.txt"] rfl (by decide)⟩

/-! ### Claim C8 -/

/-- A payload whose only part is `text/html` with decoded content
`<p>Hello</p><p>World</p>` (URL-safe base64, exercising the `-` fixup). -/
def htmlOnlyPayload : MimePart :=
  .mk (some "text/html") (some ⟨some "PHA-SGVsbG88L3A-PHA-V29ybGQ8L3A-"⟩) none

/-- C8, counterexample.  On the HTML-only payload the sanitizer does not
return `Hello` blank-line `World`: the closing `p` tag becomes a single
newline (not a blank line) and the opening `p` tag becomes a space, so the
claimed output is wrong. -/
theorem sanitizer_html_paragraph_not_blank_line :
    decodeBody "PHA-SGVsbG88L3A-PHA-V29ybGQ8L3A-" = "<p>Hello</p><p>World</p>" ∧
    makeEmailBodyLLMSafe (some htmlOnlyPayload) none ≠ "Hello\n\nWorld" := by
  refine ⟨rfl, ?_⟩
  decide

/-- C8, amended.  On the HTML-only payload `<p>Hello</p><p>World</p>` the
sanitizer returns exactly `"Hello\n World"`: each closing block tag becomes
one newline, each remaining tag becomes a space, horizontal whitespace is
collapsed and the ends trimmed — the space after the interior newline
remains. -/
theorem sanitizer_html_paragraph_actual :
    makeEmailBodyLLMSafe (some htmlOnlyPayload) none = "Hello\n World" := rfl

/-! ### Claim C3 -/

theorem isEmpty_false_of_ne (s : String) (h : s ≠ "") : s.isEmpty = false := by
  cases he : s.isEmpty
  · rfl
  · exact absurd ((String.isEmpty_iff s).mp he) h

/-- A request with both bodies present but no explicit MIME type. -/
def bothBodiesNoMime : EmailArgs :=
  { «to» := ["a@b.c"], subject := "s", body := "B", htmlBody := some "<h>H</h>" }

def bothBodiesNoMimeMsg : String :=
  "From: me\r\nTo: a@b.c\r\nSubject: s\r\nMIME-Version: 1.0\r\n" ++
  "Content-Type: text/plain; charset=UTF-8\r\nContent-Transfer-Encoding: 7bit\r\n\r\nB"

set_option maxRecDepth 16384 in
/-- C3, counterexample.  With `mimeType` absent, line 27 defaults it to
`text/plain` before the multipart check, so even with an HTML body present
the composer emits a single `text/plain` message — no
`multipart/alternative` and no `text/html` section appears. -/
theorem composer_defaults_to_plain_when_mime_absent :
    createEmailMessage bothBodiesNoMime "R" = Except.ok bothBodiesNoMimeMsg ∧
    indexOfSub "multipart".toList bothBodiesNoMimeMsg.toList = none ∧
    indexOfSub "text/html".toList bothBodiesNoMimeMsg.toList = none := by
  refine ⟨rfl, ?_, ?_⟩ <;> decide

/-- C3, amended.  When both bodies are present and the MIME type is
*explicitly set* to a nonempty value other than `text/plain`, the composed
message is `multipart/alternative` with exactly two boundary-delimited
sub-parts — `text/plain` (the plain body) first, `text/html` (the HTML body)
second — each declaring UTF-8 charset and 7-bit transfer encoding, closed by
the final boundary marker; with `mimeType` absent the composer instead
defaults to a single `text/plain` part. -/
theorem composer_multipart_structure (args : EmailArgs) (rand : String) (m hb : String)
    (hm : args.mimeType = some m) (hm1 : m ≠ "") (hm2 : m ≠ "text/plain")
    (hh : args.htmlBody = some hb) (hh1 : hb ≠ "")
    (hto : ∀ e ∈ args.to, validateEmail e = true) :
    createEmailMessage args rand =
      Except.ok (joinWith "\r\n" (headerLines args ++
        [ "Content-Type: multipart/alternative; boundary=\"" ++
            ("----=_NextPart_" ++ rand) ++ "\"",
          "",
          "--" ++ ("----=_NextPart_" ++ rand),
          "Content-Type: text/plain; charset=UTF-8",
          "Content-Transfer-Encoding: 7bit",
          "",
          args.body,
          "",
          "--" ++ ("----=_NextPart_" ++ rand),
          "Content-Type: text/html; charset=UTF-8",
          "Content-Transfer-Encoding: 7bit",
          "",
          hb,
          "",
          "--" ++ ("----=_NextPart_" ++ rand) ++ "--" ])) := by
  have hfind : args.to.find? (fun e => !validateEmail e) = none :=
    List.find?_eq_none.mpr (fun x hx => by simp [hto x hx])
  have hme : m.isEmpty = false := isEmpty_false_of_ne m hm1
  have hbe : hb.isEmpty = false := isEmpty_false_of_ne hb hh1
  have hmime : resolvedMimeType args = "multipart/alternative" := by
    simp [resolvedMimeType, hm, hme, truthyS, hh, hbe, hm2]
  have hbody : bodyLines args rand =
      [ "Content-Type: multipart/alternative; boundary=\"" ++
          ("----=_NextPart_" ++ rand) ++ "\"",
        "",
        "--" ++ ("----=_NextPart_" ++ rand),
        "Content-Type: text/plain; charset=UTF-8",
        "Content-Transfer-Encoding: 7bit",
        "",
        args.body,
        "",
        "--" ++ ("----=_NextPart_" ++ rand),
        "Content-Type: text/html; charset=UTF-8",
        "Content-Transfer-Encoding: 7bit",
        "",
        hb,
        "",
        "--" ++ ("----=_NextPart_" ++ rand) ++ "--" ] := by
    simp [bodyLines, hmime, htmlOrBody, hh, hbe]
  simp only [createEmailMessage, hfind, hbody]

def forcedHtmlArgs : EmailArgs :=
  { «to» := ["a@b.c"], subject := "s", body := "B",
    htmlBody := some "<h>H</h>", mimeType := some "text/html" }

set_option maxRecDepth 16384 in
theorem composer_multipart_structure_witness :
    forcedHtmlArgs.mimeType = some "text/html" ∧
    forcedHtmlArgs.htmlBody = some "<h>H</h>" ∧
    (∀ e ∈ forcedHtmlArgs.to, validateEmail e = true) ∧
    createEmailMessage forcedHtmlArgs "R" =
      Except.ok ("From: me\r\nTo: a@b.c\r\nSubject: s\r\nMIME-Version: 1.0\r\n" ++
        "Content-Type: multipart/alternative; boundary=\"----=_NextPart_R\"\r\n\r\n" ++
        "------=_NextPart_R\r\nContent-Type: text/plain; charset=UTF-8\r\n" ++
        "Content-Transfer-Encoding: 7bit\r\n\r\nB\r\n\r\n" ++
        "------=_NextPart_R\r\nContent-Type: text/html; charset=UTF-8\r\n" ++
        "Content-Transfer-Encoding: 7bit\r\n\r\n<h>H</h>\r\n\r\n" ++
        "------=_NextPart_R--") :=
  ⟨rfl, rfl, by decide, by
    rw [composer_multipart_structure forcedHtmlArgs "R" "text/html" "<h>H</h>" rfl
      (by decide) (by decide) rfl (by decide) (by decide)]
    rfl⟩

/-! ### Claim C10 -/

theorem mem_joinWith (sep : String) :
    ∀ (xs : List String) (x : String), x ∈ xs →
      ∃ pre post : List Char, (joinWith sep xs).toList = pre ++ x.toList ++ post := by
  intro xs
  induction xs with
  | nil => intro x hx; cases hx
  | cons y ys ih =>
    intro x hx
    rcases List.mem_cons.mp hx with rfl | hmem
    · cases ys with
      | nil => exact ⟨[], [], by simp [joinWith]⟩
      | cons z zs =>
        refine ⟨[], (sep ++ joinWith sep (z :: zs)).toList, ?_⟩
        show (x ++ sep ++ joinWith sep (z :: zs)).toList = _
        simp [toList_append]
    · cases ys with
      | nil => cases hmem
      | cons z zs =>
        obtain ⟨pre, post, hp⟩ := ih x hmem
        refine ⟨(y ++ sep).toList ++ pre, post, ?_⟩
        show (y ++ sep ++ joinWith sep (z :: zs)).toList = _
        rw [toList_append, hp]
        simp [List.append_assoc]

theorem prefix_ne_empty (p x : String) (hp : p.length ≠ 0) : p ++ x ≠ "" := by
  intro h
  have h2 := congrArg String.length h
  rw [String.length_append] at h2
  have h3 : ("" : String).length = 0 := rfl
  rw [h3] at h2
  omega

theorem cc_line_mem_headerLines (args : EmailArgs) (l : List String)
    (hcc : args.cc = some l) : ("Cc: " ++ joinWith ", " l) ∈ headerLines args := by
  unfold headerLines
  rw [hcc]
  refine List.mem_filter.mpr ⟨?_, ?_⟩
  · exact List.mem_cons_of_mem _ (List.mem_cons_of_mem _ (List.mem_cons_self _ _))
  · show (!("Cc: " ++ joinWith ", " l).isEmpty) = true
    rw [isEmpty_false_of_ne _ (prefix_ne_empty "Cc: " (joinWith ", " l) (by decide))]
    rfl

theorem bcc_line_mem_headerLines (args : EmailArgs) (l : List String)
    (hbcc : args.bcc = some l) : ("Bcc: " ++ joinWith ", " l) ∈ headerLines args := by
  unfold headerLines
  rw [hbcc]
  refine List.mem_filter.mpr ⟨?_, ?_⟩
  · exact List.mem_cons_of_mem _
      (List.mem_cons_of_mem _ (List.mem_cons_of_mem _ (List.mem_cons_self _ _)))
  · show (!("Bcc: " ++ joinWith ", " l).isEmpty) = true
    rw [isEmpty_false_of_ne _ (prefix_ne_empty "Bcc: " (joinWith ", " l) (by decide))]
    rfl

/-- C10.  Cc and bcc addresses are never validated: when every "to" address
passes, `createEmailMessage` succeeds whatever the cc/bcc lists contain, the
comma-joined cc/bcc entries appear verbatim in the Cc/Bcc header lines of
the message, and `createEmailWithNodemailer` never reports an
invalid-recipient error. -/
theorem cc_bcc_never_validated (args : EmailArgs) (rand : String)
    (hto : ∀ e ∈ args.to, validateEmail e = true) :
    (∃ msg, createEmailMessage args rand = Except.ok msg ∧
      (∀ l, args.cc = some l →
        ∃ pre post : List Char,
          msg.toList = pre ++ ("Cc: " ++ joinWith ", " l).toList ++ post) ∧
      (∀ l, args.bcc = some l →
        ∃ pre post : List Char,
          msg.toList = pre ++ ("Bcc: " ++ joinWith ", " l).toList ++ post)) ∧
    (∀ (fsExists : String → Bool) (render : MailOptions → String) (a : String),
      createEmailWithNodemailer args fsExists render ≠
        Except.error (MailError.invalidRecipient a)) := by
  have hfind : args.to.find? (fun e => !validateEmail e) = none :=
    List.find?_eq_none.mpr (fun x hx => by simp [hto x hx])
  constructor
  · refine ⟨joinWith "\r\n" (headerLines args ++ bodyLines args rand), ?_, ?_, ?_⟩
    · simp only [createEmailMessage, hfind]
    · intro l hcc
      exact mem_joinWith "\r\n" _ _ (List.mem_append_left _ (cc_line_mem_headerLines args l hcc))
    · intro l hbcc
      exact mem_joinWith "\r\n" _ _ (List.mem_append_left _ (bcc_line_mem_headerLines args l hbcc))
  · intro fsExists render a
    unfold createEmailWithNodemailer
    rw [hfind]
    cases hatt : args.attachments with
    | none => simp [hatt]
    | some paths =>
      simp only [hatt]
      cases hfind2 : paths.find? (fun p => !fsExists p) with
      | none => simp [hfind2]
      | some p => simp [hfind2]

def ccBccArgs : EmailArgs :=
  { «to» := ["a@b.c"], cc := some ["not an address", "x@@y"], bcc := some ["also bad"],
    subject := "s", body := "b" }

theorem cc_bcc_never_validated_witness :
    (∀ e ∈ ccBccArgs.to, validateEmail e = true) ∧
    ((∃ msg, createEmailMessage ccBccArgs "r" = Except.ok msg ∧
      (∀ l, ccBccArgs.cc = some l →
        ∃ pre post : List Char,
          msg.toList = pre ++ ("Cc: " ++ joinWith ", " l).toList ++ post) ∧
      (∀ l, ccBccArgs.bcc = some l →
        ∃ pre post : List Char,
          msg.toList = pre ++ ("Bcc: " ++ joinWith ", " l).toList ++ post)) ∧
    (∀ (fsExists : String → Bool) (render : MailOptions → String) (a : String),
      createEmailWithNodemailer ccBccArgs fsExists render ≠
        Except.error (MailError.invalidRecipient a))) :=
  ⟨by decide, cc_bcc_never_validated ccBccArgs "r" (by decide)⟩

/-! ### Claim C9 -/

/-- Formulated from the claim's words, for comparison with the source's
check: `e` has the shape local-part at-sign domain, with nonempty parts, no
whitespace anywhere, no `@` inside the local part or the domain, and at
least one `.` somewhere in the domain. -/
def claimEmailShape (e : String) : Prop :=
  ∃ loc dom : List Char,
    e.toList = loc ++ '@' :: dom ∧ loc ≠ [] ∧ dom ≠ [] ∧
    (∀ c ∈ e.toList, isJsWs c = false) ∧ '@' ∉ loc ∧ '@' ∉ dom ∧ '.' ∈ dom

/-- C9, counterexample.  `a@b.` satisfies every condition of the claim (the
domain `b.` contains a dot), yet the regex requires at least one admissible
character *after* a dot, so the validator rejects it: the claimed
iff-characterisation is too weak. -/
theorem validateEmail_rejects_trailing_dot :
    claimEmailShape "a@b." ∧ validateEmail "a@b." = false := by
  constructor
  · refine ⟨['a'], ['b', '.'], ?_, ?_, ?_, ?_, ?_, ?_, ?_⟩ <;> decide
  · decide


theorem and_true_split (a b : Bool) (h : (a && b) = true) : a = true ∧ b = true := by
  cases a <;> cases b <;> simp_all

theorem isAtomChar_ne_at (c : Char) (h : isAtomChar c = true) : c ≠ '@' :=
  of_decide_eq_true (and_true_split _ _ h).2

theorem list_ne_nil_isEmpty_false {α : Type} (l : List α) (h : l ≠ []) :
    l.isEmpty = false := by
  cases l
  · exact absurd rfl h
  · rfl

theorem takeWhile_dropWhile_split (p : Char → Bool) (l r : List Char) (a : Char)
    (hl : ∀ c ∈ l, p c = true) (ha : p a = false) :
    (l ++ a :: r).takeWhile p = l ∧ (l ++ a :: r).dropWhile p = a :: r := by
  induction l with
  | nil => simp [List.takeWhile, List.dropWhile, ha]
  | cons x xs ih =>
    have hx : p x = true := hl x (List.mem_cons_self _ _)
    have ih2 := ih (fun c hc => hl c (List.mem_cons_of_mem _ hc))
    constructor
    · show List.takeWhile p (x :: (xs ++ a :: r)) = x :: xs
      simp [List.takeWhile_cons, hx, ih2.1]
    · show List.dropWhile p (x :: (xs ++ a :: r)) = a :: r
      simp [List.dropWhile_cons, hx, ih2.2]

/-- C9, amended.  `validateEmail e` is true iff `e` splits as
`loc ++ '@' ++ d1 ++ '.' ++ d2` with `loc`, `d1`, `d2` nonempty and every
one of their characters admissible (neither whitespace nor `@`) — i.e. the
domain must contain a dot that is neither its first nor its last character,
with only admissible characters throughout. -/
theorem validateEmail_characterisation (e : String) :
    validateEmail e = true ↔
      ∃ loc d1 d2 : List Char,
        e.toList = loc ++ '@' :: (d1 ++ '.' :: d2) ∧
        loc ≠ [] ∧ d1 ≠ [] ∧ d2 ≠ [] ∧
        (∀ c ∈ loc, isAtomChar c = true) ∧
        (∀ c ∈ d1, isAtomChar c = true) ∧
        (∀ c ∈ d2, isAtomChar c = true) := by
  constructor
  · intro hv
    unfold validateEmail at hv
    split at hv
    case _ c dom heq =>
      obtain ⟨h1, hdom⟩ := and_true_split _ _ hv
      obtain ⟨hc, hloc⟩ := and_true_split _ _ h1
      have hceq : c = '@' := of_decide_eq_true hc
      subst hceq
      have hsplit : e.toList.takeWhile (fun x => decide (x ≠ '@')) ++ ('@' :: dom) =
          e.toList := by
        rw [← heq]
        exact List.takeWhile_append_dropWhile _ _
      unfold validLocal at hloc
      obtain ⟨hlE, hlAll⟩ := and_true_split _ _ hloc
      have hlatoms := List.all_eq_true.mp hlAll
      have hlne : e.toList.takeWhile (fun x => decide (x ≠ '@')) ≠ [] := by
        intro hnil
        rw [hnil] at hlE
        simp at hlE
      unfold validDomain at hdom
      obtain ⟨hd1, hint⟩ := and_true_split _ _ hdom
      obtain ⟨hdE, hdAll⟩ := and_true_split _ _ hd1
      have hdatoms := List.all_eq_true.mp hdAll
      have hdot : '.' ∈ (dom.drop 1).dropLast := by
        unfold hasInteriorDot at hint
        exact List.elem_iff.mp hint
      cases dom with
      | nil => simp at hdot
      | cons d0 rest =>
        have hrest : '.' ∈ rest.dropLast := by simpa using hdot
        have hrne : rest ≠ [] := by
          intro hnil
          rw [hnil] at hrest
          simp at hrest
        obtain ⟨s, t, hst⟩ := List.append_of_mem hrest
        have hlast := List.dropLast_append_getLast hrne
        obtain ⟨lc, hlc⟩ : ∃ lc, rest = s ++ '.' :: (t ++ [lc]) := by
          refine ⟨rest.getLast hrne, ?_⟩
          conv_lhs => rw [← hlast]
          rw [hst]
          simp
        refine ⟨e.toList.takeWhile (fun x => decide (x ≠ '@')), d0 :: s,
          t ++ [lc], ?_, hlne, by simp, by simp, hlatoms, ?_, ?_⟩
        · conv_lhs => rw [← hsplit]
          rw [hlc]
          simp
        · intro x hx
          rcases List.mem_cons.mp hx with rfl | hmem
          · exact hdatoms x (List.mem_cons_self _ _)
          · apply hdatoms
            apply List.mem_cons_of_mem
            rw [hlc]
            exact List.mem_append_left _ hmem
        · intro x hx
          apply hdatoms
          apply List.mem_cons_of_mem
          rw [hlc]
          exact List.mem_append_right _ (List.mem_cons_of_mem _ hx)
    case _ heq =>
      exact Bool.noConfusion hv
  · rintro ⟨loc, d1, d2, hsplit, hlne, hd1ne, hd2ne, hlatoms, hd1atoms, hd2atoms⟩
    have hp : ∀ c ∈ loc, (fun x => decide (x ≠ '@')) c = true := fun c hc =>
      decide_eq_true (isAtomChar_ne_at c (hlatoms c hc))
    have hpa : (fun x => decide (x ≠ '@')) '@' = false := by simp
    have hsp := takeWhile_dropWhile_split (fun x => decide (x ≠ '@')) loc
      (d1 ++ '.' :: d2) '@' hp hpa
    have hloc : validLocal loc = true := by
      unfold validLocal
      rw [list_ne_nil_isEmpty_false loc hlne, List.all_eq_true.mpr hlatoms]
      rfl
    have hdom : validDomain (d1 ++ '.' :: d2) = true := by
      unfold validDomain
      have hne : (d1 ++ '.' :: d2).isEmpty = false :=
        list_ne_nil_isEmpty_false _ (by simp)
      have hall : (d1 ++ '.' :: d2).all isAtomChar = true := by
        rw [List.all_eq_true]
        intro x hx
        rcases List.mem_append.mp hx with hmem | hmem
        · exact hd1atoms x hmem
        · rcases List.mem_cons.mp hmem with rfl | hmem2
          · decide
          · exact hd2atoms x hmem2
      have hint : hasInteriorDot (d1 ++ '.' :: d2) = true := by
        unfold hasInteriorDot
        cases d1 with
        | nil => exact absurd rfl hd1ne
        | cons c0 d1r =>
          have hd2last := List.dropLast_append_getLast hd2ne
          have hmid : d1r ++ '.' :: d2 =
              (d1r ++ '.' :: d2.dropLast) ++ [d2.getLast hd2ne] := by
            conv_lhs => rw [← hd2last]
            simp
          show (((c0 :: d1r) ++ '.' :: d2).drop 1).dropLast.contains '.' = true
          have hdrop : ((c0 :: d1r) ++ '.' :: d2).drop 1 = d1r ++ '.' :: d2 := by simp
          rw [hdrop, hmid, List.dropLast_concat]
          exact List.elem_iff.mpr (List.mem_append_right _ (List.mem_cons_self _ _))
      rw [hne, hall, hint]
      rfl
    unfold validateEmail
    rw [hsplit, hsp.2]
    show ((decide ('@' = '@') && validLocal ((loc ++ '@' :: (d1 ++ '.' :: d2)).takeWhile
        (fun x => decide (x ≠ '@')))) && validDomain (d1 ++ '.' :: d2)) = true
    rw [hsp.1, hloc, hdom]
    decide
